import Mathlib

/-!
Verification of the crahler download orchestration core (src/main.py).

The Python source is shallowly embedded: each stdlib helper the code calls
(`str.lower`, `os.path.splitext`, `os.path.basename`, `urllib.parse.unquote`,
`urllib.parse.urlparse` / `urlunparse` / `urljoin`) is modelled as an
executable Lean function over `List Char`, faithful to the CPython algorithm
on URL strings free of ASCII control characters (the control-character
stripping CPython applies before splitting a URL is not modelled, and
`str.lower` is modelled on its ASCII fragment, which is all the code relies
on for extensions and scheme names).
-/

namespace Crahler

/-- ASCII lowercase of one character, the fragment of CPython `str.lower`
relevant to URL extensions and scheme names. -/
def pyLowerChar : Char → Char
  | 'A' => 'a' | 'B' => 'b' | 'C' => 'c' | 'D' => 'd' | 'E' => 'e'
  | 'F' => 'f' | 'G' => 'g' | 'H' => 'h' | 'I' => 'i' | 'J' => 'j'
  | 'K' => 'k' | 'L' => 'l' | 'M' => 'm' | 'N' => 'n' | 'O' => 'o'
  | 'P' => 'p' | 'Q' => 'q' | 'R' => 'r' | 'S' => 's' | 'T' => 't'
  | 'U' => 'u' | 'V' => 'v' | 'W' => 'w' | 'X' => 'x' | 'Y' => 'y'
  | 'Z' => 'z'
  | c => c

/-- Model of Python `str.lower` (ASCII fragment). -/
def pyLower (s : String) : String := ⟨s.data.map pyLowerChar⟩

/-- Break a character list at the first occurrence of `c`: returns the part
before it and, when `c` occurs, the part after it (exclusive). -/
def breakAtFirst (c : Char) : List Char → List Char × Option (List Char)
  | [] => ([], none)
  | x :: xs =>
    if x = c then ([], some xs)
    else
      let r := breakAtFirst c xs
      (x :: r.1, r.2)

/-- `sub` occurs as a contiguous substring of `l` (model of Python `in` on
strings). -/
def isSubstring (sub : List Char) : List Char → Bool
  | [] => sub.isEmpty
  | x :: xs => sub.isPrefixOf (x :: xs) || isSubstring sub xs

/-- Model of Python `needle in haystack` for strings. -/
def containsSubstr (haystack needle : String) : Bool :=
  isSubstring needle.data haystack.data

/-- Model of Python `s.startswith(pre)`. -/
def pyStartsWith (s pre : String) : Bool :=
  pre.data.isPrefixOf s.data

/-- The extension part of CPython `os.path.splitext` (posix): the suffix of
the last path component from its last dot, except that leading dots of the
component never start an extension. -/
def pyExtList (l : List Char) : List Char :=
  let bR := l.reverse.takeWhile (fun c => !(c = '/'))
  let e := bR.takeWhile (fun c => !(c = '.'))
  match bR.dropWhile (fun c => !(c = '.')) with
  | _ :: rest =>
    if rest.any (fun c => !(c = '.')) then '.' :: e.reverse else []
  | [] => []

/-- Model of CPython `os.path.splitext` (posix), returning `(root, ext)`. -/
def splitext (s : String) : String × String :=
  let e := pyExtList s.data
  (⟨s.data.take (s.data.length - e.length)⟩, ⟨e⟩)

/-- Model of CPython `os.path.basename` (posix): everything after the last
slash. -/
def basename (s : String) : String :=
  ⟨(s.data.reverse.takeWhile (fun c => !(c = '/'))).reverse⟩

/-- Hex digit value, both letter cases (CPython `_hextobyte`). -/
def hexVal (c : Char) : Option Nat :=
  if '0' ≤ c ∧ c ≤ '9' then some (c.toNat - '0'.toNat)
  else if 'a' ≤ c ∧ c ≤ 'f' then some (c.toNat - 'a'.toNat + 10)
  else if 'A' ≤ c ∧ c ≤ 'F' then some (c.toNat - 'A'.toNat + 10)
  else none

/-- UTF-8 encoding of one character as a byte list. -/
def utf8EncodeChar (c : Char) : List Nat :=
  let n := c.toNat
  if n < 0x80 then [n]
  else if n < 0x800 then [0xC0 + n / 0x40, 0x80 + n % 0x40]
  else if n < 0x10000 then
    [0xE0 + n / 0x1000, 0x80 + (n / 0x40) % 0x40, 0x80 + n % 0x40]
  else
    [0xF0 + n / 0x40000, 0x80 + (n / 0x1000) % 0x40,
     0x80 + (n / 0x40) % 0x40, 0x80 + n % 0x40]

/-- Byte stream of a percent-encoded string: each valid `%XX` escape yields
the byte `XX`; everything else contributes its UTF-8 bytes (an invalid escape
leaves the `%` literal), as in CPython `unquote_to_bytes`. -/
def percentBytes : List Char → List Nat
  | [] => []
  | '%' :: a :: b :: rest =>
    match hexVal a, hexVal b with
    | some x, some y => (16 * x + y) :: percentBytes rest
    | _, _ => utf8EncodeChar '%' ++ percentBytes (a :: b :: rest)
  | c :: rest => utf8EncodeChar c ++ percentBytes rest

/-- One fuel-indexed step of UTF-8 decoding with U+FFFD substitution for
invalid sequences.  The fuel is an upper bound on the number of bytes; each
step consumes at least one byte. -/
def utf8DecodeAux : Nat → List Nat → List Char
  | 0, _ => []
  | _ + 1, [] => []
  | f + 1, b :: rest =>
    if b < 0x80 then Char.ofNat b :: utf8DecodeAux f rest
    else if b < 0xC2 then '�' :: utf8DecodeAux f rest
    else if b < 0xE0 then
      match rest with
      | b2 :: rest2 =>
        if 0x80 ≤ b2 ∧ b2 < 0xC0 then
          Char.ofNat ((b - 0xC0) * 0x40 + (b2 - 0x80)) :: utf8DecodeAux f rest2
        else '�' :: utf8DecodeAux f rest
      | [] => ['�']
    else if b < 0xF0 then
      match rest with
      | b2 :: b3 :: rest3 =>
        if (0x80 ≤ b2 ∧ b2 < 0xC0) ∧ (0x80 ≤ b3 ∧ b3 < 0xC0) ∧
           (b = 0xE0 → 0xA0 ≤ b2) ∧ (b = 0xED → b2 < 0xA0) then
          Char.ofNat ((b - 0xE0) * 0x1000 + (b2 - 0x80) * 0x40 + (b3 - 0x80)) ::
            utf8DecodeAux f rest3
        else '�' :: utf8DecodeAux f rest
      | _ => '�' :: utf8DecodeAux f rest
    else if b < 0xF5 then
      match rest with
      | b2 :: b3 :: b4 :: rest4 =>
        if (0x80 ≤ b2 ∧ b2 < 0xC0) ∧ (0x80 ≤ b3 ∧ b3 < 0xC0) ∧
           (0x80 ≤ b4 ∧ b4 < 0xC0) ∧
           (b = 0xF0 → 0x90 ≤ b2) ∧ (b = 0xF4 → b2 < 0x90) then
          Char.ofNat ((b - 0xF0) * 0x40000 + (b2 - 0x80) * 0x1000 +
              (b3 - 0x80) * 0x40 + (b4 - 0x80)) :: utf8DecodeAux f rest4
        else '�' :: utf8DecodeAux f rest
      | _ => '�' :: utf8DecodeAux f rest
    else '�' :: utf8DecodeAux f rest

/-- UTF-8 decoding with replacement of invalid sequences. -/
def utf8Decode (l : List Nat) : List Char := utf8DecodeAux l.length l

/-- Model of CPython `urllib.parse.unquote` (UTF-8, errors replaced): a string
without `%` is returned unchanged; otherwise the percent-decoded byte stream
is decoded as UTF-8. -/
def unquote (s : String) : String :=
  if s.data.any (fun c => c = '%') then ⟨utf8Decode (percentBytes s.data)⟩
  else s

/-- `DOCUMENT_TYPES` of src/main.py: extension to category, in source order. -/
def DOCUMENT_TYPES : List (String × String) :=
  [(".pdf", "documents"), (".doc", "documents"), (".docx", "documents"),
   (".txt", "documents"), (".rtf", "documents"),
   (".xls", "spreadsheets"), (".xlsx", "spreadsheets"), (".csv", "spreadsheets"),
   (".ppt", "presentations"), (".pptx", "presentations"),
   (".jpg", "images"), (".jpeg", "images"), (".png", "images"),
   (".gif", "images"), (".bmp", "images"), (".webp", "images"),
   (".json", "data"), (".xml", "data"), (".yaml", "data"), (".yml", "data")]

/-- Category of an extension (`DOCUMENT_TYPES[ext]` / `ext in DOCUMENT_TYPES`). -/
def lookupCategory (e : String) : Option String :=
  List.lookup e DOCUMENT_TYPES

/-- The extension the handler inspects for a candidate absolute URL
(src/main.py lines 192-193): `os.path.splitext(unquote(url).lower())[1]` —
note it is taken from the whole decoded URL string. -/
def extOf (u : String) : String :=
  (splitext (pyLower (unquote u))).2

/-- The classification the handler performs on a candidate absolute URL
(src/main.py line 195 with line 201): the category when the inspected
extension is a `DOCUMENT_TYPES` key, `none` otherwise. -/
def classify (u : String) : Option String :=
  lookupCategory (extOf u)

/-- ASCII letter test (CPython `str.isalpha` on ASCII). -/
def isAsciiAlpha (c : Char) : Bool :=
  ('a' ≤ c ∧ c ≤ 'z') ∨ ('A' ≤ c ∧ c ≤ 'Z')

/-- ASCII digit test. -/
def isAsciiDigit (c : Char) : Bool :=
  '0' ≤ c ∧ c ≤ '9'

/-- Characters allowed after the first one in a URL scheme
(CPython `scheme_chars`). -/
def isSchemeChar (c : Char) : Bool :=
  isAsciiAlpha c || isAsciiDigit c || c = '+' || c = '-' || c = '.'

/-- A character that keeps extending the netloc part (CPython `_splitnetloc`
stops at `/`, `?` or `#`). -/
def isNetlocChar (c : Char) : Bool :=
  !(c = '/' || c = '?' || c = '#')

/-- Parsed URL components, as in CPython `urllib.parse.ParseResult`. -/
structure URLParts where
  scheme : String
  netloc : String
  path : String
  params : String
  query : String
  fragment : String
deriving Repr, DecidableEq

/-- Model of CPython `urllib.parse.urlsplit` (fragments allowed, inputs free
of ASCII control characters): scheme, netloc, path, query, fragment. -/
def urlsplit (url : String) (dfltScheme : String) :
    String × String × String × String × String :=
  let (scheme, rest) :=
    match breakAtFirst ':' url.data with
    | (before, some after) =>
      match before with
      | c :: cs =>
        if isAsciiAlpha c && cs.all isSchemeChar then
          ((c :: cs).map pyLowerChar, after)
        else (dfltScheme.data, url.data)
      | [] => (dfltScheme.data, url.data)
    | (_, none) => (dfltScheme.data, url.data)
  let (netloc, rest) :=
    match rest with
    | '/' :: '/' :: r => (r.takeWhile isNetlocChar, r.dropWhile isNetlocChar)
    | r => ([], r)
  let (rest, fragment) :=
    match breakAtFirst '#' rest with
    | (a, some f) => (a, f)
    | (a, none) => (a, [])
  let (path, query) :=
    match breakAtFirst '?' rest with
    | (a, some q) => (a, q)
    | (a, none) => (a, [])
  (⟨scheme⟩, ⟨netloc⟩, ⟨path⟩, ⟨query⟩, ⟨fragment⟩)

/-- Schemes for which CPython `urlparse` splits `;`-parameters off the path. -/
def uses_params : List String :=
  ["", "ftp", "hdl", "prospero", "http", "imap", "https", "shttp", "rtsp",
   "rtspu", "sip", "sips", "mms", "sftp", "tel"]

/-- Model of CPython `_splitparams`: split the parameters off the last path
segment at its first `;`. -/
def splitparams (p : List Char) : List Char × List Char :=
  if p.any (fun c => c = '/') then
    let bn := (p.reverse.takeWhile (fun c => !(c = '/'))).reverse
    let dir := (p.reverse.dropWhile (fun c => !(c = '/'))).reverse
    match breakAtFirst ';' bn with
    | (a, some r) => (dir ++ a, r)
    | (_, none) => (p, [])
  else
    match breakAtFirst ';' p with
    | (a, some r) => (a, r)
    | (_, none) => (p, [])

/-- Model of CPython `urllib.parse.urlparse` with an explicit default scheme. -/
def urlparse (url : String) (dfltScheme : String) : URLParts :=
  let (scheme, netloc, path, query, fragment) := urlsplit url dfltScheme
  if scheme ∈ uses_params ∧ path.data.any (fun c => c = ';') then
    let (p, ps) := splitparams path.data
    ⟨scheme, netloc, ⟨p⟩, ⟨ps⟩, query, fragment⟩
  else
    ⟨scheme, netloc, path, "", query, fragment⟩

/-- Schemes that support relative references (CPython `uses_relative`). -/
def uses_relative : List String :=
  ["", "ftp", "http", "gopher", "nntp", "imap", "wais", "file", "https",
   "shttp", "mms", "prospero", "rtsp", "rtspu", "sftp", "svn", "svn+ssh",
   "ws", "wss"]

/-- Schemes that use a network location (CPython `uses_netloc`). -/
def uses_netloc : List String :=
  ["", "ftp", "http", "gopher", "nntp", "telnet", "imap", "wais", "file",
   "mms", "https", "shttp", "snews", "prospero", "rtsp", "rtspu", "rsync",
   "svn", "svn+ssh", "sftp", "nfs", "git", "git+ssh", "ws", "wss"]

/-- Model of CPython 3.11 `urllib.parse.urlunsplit`. -/
def urlunsplit (scheme netloc url query fragment : List Char) : List Char :=
  let url :=
    if netloc ≠ [] ∨
        (scheme ≠ [] ∧ (⟨scheme⟩ : String) ∈ uses_netloc ∧
          url.take 2 ≠ ['/', '/']) then
      let url := if url ≠ [] ∧ url.head? ≠ some '/' then '/' :: url else url
      '/' :: '/' :: (netloc ++ url)
    else url
  let url := if scheme ≠ [] then scheme ++ ':' :: url else url
  let url := if query ≠ [] then url ++ '?' :: query else url
  if fragment ≠ [] then url ++ '#' :: fragment else url

/-- Model of CPython `urllib.parse.urlunparse`. -/
def urlunparse (u : URLParts) : String :=
  let path := if u.params ≠ "" then u.path.data ++ ';' :: u.params.data
              else u.path.data
  ⟨urlunsplit u.scheme.data u.netloc.data path u.query.data u.fragment.data⟩

/-- Model of Python `s.split(c)` for a one-character separator. -/
def splitOnChar (c : Char) : List Char → List (List Char)
  | [] => [[]]
  | x :: xs =>
    if x = c then [] :: splitOnChar c xs
    else
      match splitOnChar c xs with
      | h :: t => (x :: h) :: t
      | [] => [[x]]

/-- `segments[1:-1] = filter(None, segments[1:-1])` of CPython `urljoin`:
drop empty segments, keeping the first and last elements. -/
def filterMiddleAux : List (List Char) → List (List Char)
  | [] => []
  | [x] => [x]
  | x :: rest =>
    if x = [] then filterMiddleAux rest else x :: filterMiddleAux rest

/-- Apply `filterMiddleAux` to everything after the first element. -/
def filterMiddle : List (List Char) → List (List Char)
  | [] => []
  | x :: rest => x :: filterMiddleAux rest

/-- The dot-segment resolution loop of CPython `urljoin`; the accumulator is
the resolved path in reverse. -/
def resolveSegsAux (acc : List (List Char)) : List (List Char) → List (List Char)
  | [] => acc
  | s :: rest =>
    if s = ['.', '.'] then resolveSegsAux (acc.drop 1) rest
    else if s = ['.'] then resolveSegsAux acc rest
    else resolveSegsAux (s :: acc) rest

/-- Model of CPython `urllib.parse.urljoin`. -/
def urljoin (base url : String) : String :=
  if base = "" then url
  else if url = "" then base
  else
    let b := urlparse base ""
    let u := urlparse url b.scheme
    if ¬(u.scheme = b.scheme ∧ u.scheme ∈ uses_relative) then url
    else if u.scheme ∈ uses_netloc ∧ u.netloc ≠ "" then
      urlunparse ⟨u.scheme, u.netloc, u.path, u.params, u.query, u.fragment⟩
    else
      let netloc := if u.scheme ∈ uses_netloc then b.netloc else u.netloc
      if u.path = "" ∧ u.params = "" then
        urlunparse ⟨u.scheme, netloc, b.path, b.params,
          (if u.query = "" then b.query else u.query), u.fragment⟩
      else
        let baseParts := splitOnChar '/' b.path.data
        let baseParts :=
          if baseParts.getLast? ≠ some [] then baseParts.dropLast else baseParts
        let segments :=
          if u.path.data.head? = some '/' then splitOnChar '/' u.path.data
          else filterMiddle (baseParts ++ splitOnChar '/' u.path.data)
        let resolved := (resolveSegsAux [] segments).reverse
        let resolved :=
          if segments.getLast? = some ['.'] ∨ segments.getLast? = some ['.', '.']
          then resolved ++ [[]] else resolved
        let joined := List.intercalate ['/'] resolved
        let path := if joined = [] then ['/'] else joined
        urlunparse ⟨u.scheme, netloc, ⟨path⟩, u.params, u.query, u.fragment⟩

/-- `add_www_to_url` of src/main.py: prepend `www.` to the netloc when it is
not already there, and reassemble the URL. -/
def add_www_to_url (url : String) : String :=
  let parsed := urlparse url ""
  if !(pyStartsWith parsed.netloc "www.") then
    urlunparse { parsed with netloc := "www." ++ parsed.netloc }
  else
    urlunparse parsed

/-- Outcome of one HTTP request: a completed response with a status code, or
a raised exception carrying its message string. -/
inductive ReqResult where
  | status (code : Nat)
  | exn (msg : String)
deriving Repr, DecidableEq

/-- The network behaviour `download_file` can observe for one call: the
outcome of its initial request and, should it retry, of the www-retry
request. -/
structure Network where
  first : ReqResult
  second : ReqResult
deriving Repr, DecidableEq

/-- Observable result of one `download_file` call: the truthiness of its
return value (`None` is falsy), the request URLs attempted in order, whether
the destination file was written, and whether the error log was appended. -/
structure DFResult where
  success : Bool
  requests : List String
  wrote : Bool
  logged : Bool
deriving Repr, DecidableEq

/-- The condition of src/main.py line 109 under which `download_file`
retries: the exception message contains `getaddrinfo failed` and the URL's
netloc does not start with `www.`. -/
def dnsRetryCond (msg url : String) : Bool :=
  containsSubstr msg "getaddrinfo failed" &&
    !(pyStartsWith (urlparse url "").netloc "www.")

/-- `download_file` of src/main.py (lines 95-131) over an abstract network:
stream on a 200 response; on a `getaddrinfo failed` exception for a
non-`www.` host, retry once on `add_www_to_url url`; append the original URL
to the error log only on the exception paths.  A non-200 response (initial or
retry) returns falsy without logging. -/
def download_file (url : String) (net : Network) : DFResult :=
  match net.first with
  | .status code =>
    if code = 200 then ⟨true, [url], true, false⟩
    else ⟨false, [url], false, false⟩
  | .exn msg =>
    if dnsRetryCond msg url then
      let www_url := add_www_to_url url
      match net.second with
      | .status code =>
        if code = 200 then ⟨true, [url, www_url], true, false⟩
        else ⟨false, [url, www_url], false, false⟩
      | .exn _ => ⟨false, [url, www_url], false, true⟩
    else ⟨false, [url], false, true⟩

/-- A Python `set` of strings is modelled as a duplicate-free list;
`set.add` keeps the list duplicate-free. -/
def pySetInsert (x : String) (l : List String) : List String :=
  if x ∈ l then l else l ++ [x]

/-- The set built from the elements of a list (`set(xs)`). -/
def pySetOfList (l : List String) : List String :=
  l.foldl (fun acc x => pySetInsert x acc) []

/-- `load_download_history` of src/main.py (lines 68-77): the persisted file
is a JSON array of URL strings, or absent/unreadable (`none`), which yields
the empty set; `set(json.load(f))` deduplicates. -/
def load_download_history (file : Option (List String)) : List String :=
  match file with
  | none => []
  | some l => pySetOfList l

/-- `save_download_history` of src/main.py (lines 80-84): full rewrite of the
file with `list(history)`. -/
def save_download_history (history : List String) : Option (List String) :=
  some history

/-- Glob pattern matching.  Modelled from the spec: the banned-link source
holds "glob expressions" compiled by the external `crawlee.Glob` class (not
part of this repository); `*` matches any character sequence and `?` any
single character. -/
def globMatchAux : Nat → List Char → List Char → Bool
  | 0, _, _ => false
  | _ + 1, [], [] => true
  | _ + 1, [], _ :: _ => false
  | f + 1, '*' :: ps, s =>
    globMatchAux f ps s ||
      (match s with
       | [] => false
       | _ :: s' => globMatchAux f ('*' :: ps) s')
  | f + 1, '?' :: ps, _ :: s => globMatchAux f ps s
  | _ + 1, '?' :: _, [] => false
  | f + 1, p :: ps, c :: s => p = c && globMatchAux f ps s
  | _ + 1, _ :: _, [] => false

/-- Glob matching over character lists; the fuel bound
`p.length + s.length + 1` dominates the recursion depth. -/
def globMatchList (p s : List Char) : Bool :=
  globMatchAux (p.length + s.length + 1) p s

/-- Glob match on strings. -/
def globMatch (pat s : String) : Bool := globMatchList pat.data s.data

/-- Python `str.strip` (ASCII whitespace fragment). -/
def isPySpace (c : Char) : Bool :=
  c = ' ' || c = '\t' || c = '\n' || c = '\r' ||
    c = Char.ofNat 11 || c = Char.ofNat 12

/-- Model of Python `s.strip()` on ASCII whitespace. -/
def pyStrip (s : String) : String :=
  ⟨((s.data.dropWhile isPySpace).reverse.dropWhile isPySpace).reverse⟩

/-- Split a character list into lines at newline characters. -/
def splitLines : List Char → List (List Char) := splitOnChar '\n'

/-- The banned-pattern loading of src/main.py (lines 226-234): read the file,
strip each line, compile each as a glob.  Modelled from the spec for the
external glob compiler: blank lines (and lines that fail to compile) are
skipped. -/
def loadBannedPatterns (src : String) : List String :=
  ((splitLines src.data).map (fun l => pyStrip ⟨l⟩)).filter (fun p => p ≠ "")

/-- Tag of a discovered link element (`soup.find_all(['a', 'img'])`). -/
inductive Tag where
  | a
  | img
deriving Repr, DecidableEq

/-- How the `await download_file(...)` expression behaves for a given URL:
it either evaluates over some network behaviour, or raises (the handler's
`except` path of src/main.py lines 218-221). -/
inductive FetchEval where
  | completes (net : Network)
  | raises
deriving Repr, DecidableEq

/-- Observable state of one run: the history file contents, the error-log
lines, the file writes `(save_path, source_url)` in order, the request URLs
attempted by the fetcher, and the URLs handed to the engine's enqueue call. -/
structure RunState where
  historyFile : Option (List String)
  errorLog : List String
  written : List (String × String)
  fetched : List String
  enqueued : List String
deriving Repr, DecidableEq

/-- Filename derivation of src/main.py lines 202-204: the basename of the
decoded URL, or `file_<n><ext>` when that is empty or has no extension,
where `n` is the size of the in-memory history set at that point. -/
def derive_filename (decoded ext : String) (n : Nat) : String :=
  let filename := basename decoded
  if filename = "" ∨ (splitext filename).2 = "" then
    "file_" ++ toString n ++ ext
  else filename

/-- The body of the per-link loop of `request_handler` (src/main.py lines
189-241) for one candidate link with a non-empty raw URL.  File-classified
links go through history check, filename derivation and `download_file` with
speculative insert and rollback; other links go through the banned-pattern
filter and, for anchors, the engine's enqueue call. -/
def processLink (baseDir pageUrl bannedSrc : String) (tag : Tag) (url : String)
    (fetch : String → FetchEval) (st : RunState) : RunState :=
  let absolute_url := urljoin pageUrl url
  let decoded_url := unquote absolute_url
  let file_extension := extOf absolute_url
  match lookupCategory file_extension with
  | some subdir =>
    let processed_files := load_download_history st.historyFile
    if absolute_url ∈ processed_files then st
    else
      let processed_files := pySetInsert absolute_url processed_files
      let filename := derive_filename decoded_url file_extension
        processed_files.length
      let save_path := baseDir ++ "/" ++ subdir ++ "/" ++ filename
      match fetch absolute_url with
      | .raises =>
        { st with
          historyFile :=
            save_download_history (processed_files.erase absolute_url) }
      | .completes net =>
        let r := download_file absolute_url net
        let st :=
          { st with
            fetched := st.fetched ++ r.requests
            written :=
              if r.wrote then st.written ++ [(save_path, absolute_url)]
              else st.written
            errorLog :=
              if r.logged then st.errorLog ++ [absolute_url]
              else st.errorLog }
        if r.success then
          { st with historyFile := save_download_history processed_files }
        else
          { st with
            historyFile :=
              save_download_history (processed_files.erase absolute_url) }
  | none =>
    let banned_patterns := loadBannedPatterns bannedSrc
    if banned_patterns.any (fun p => globMatch p url) then st
    else if tag = Tag.a then { st with enqueued := st.enqueued ++ [url] }
    else st

/-- The per-page loop of `request_handler`: each discovered element yields a
raw URL (href or src), falsy ones are skipped. -/
def request_handler (baseDir pageUrl bannedSrc : String)
    (links : List (Tag × String)) (fetch : String → FetchEval)
    (st : RunState) : RunState :=
  links.foldl
    (fun st l =>
      if l.2 = "" then st
      else processLink baseDir pageUrl bannedSrc l.1 l.2 fetch st)
    st

/-- Initial run state: fresh default files (src/main.py `create_default_files`
writes an empty JSON list, an empty banned file and an empty error log). -/
def initialState : RunState :=
  ⟨some [], [], [], [], []⟩

/-- The content a path holds after a list of writes: the last write wins. -/
def fileContents (written : List (String × String)) (p : String) :
    Option String :=
  ((written.filter (fun e => e.1 = p)).getLast?).map (fun e => e.2)

/-- The spec's literal extension rule: the substring of a string from its
last `.` to the end, empty when it has no dot.  Unlike `os.path.splitext`
this has no leading-dot exception, so a dotfile name such as `.pdf` yields
`.pdf`. -/
def lastDotSuffix (l : List Char) : List Char :=
  if '.' ∈ l then '.' :: (l.reverse.takeWhile (fun c => !(c = '.'))).reverse
  else []

/-- Modelled from the spec (§4.1, Classifier), for comparison with the code's
`classify`: "take the lowercase file-extension suffix of the URL's path
component (substring from the last `.` to end, empty if none); look up in
CategoryMap; return the category or 'not a file' if absent". -/
def classifySpecC2 (u : String) : Option String :=
  lookupCategory ⟨lastDotSuffix (pyLower (urlparse (unquote u) "").path).data⟩

/-- A network where every request completes with status 200. -/
def netOK : String → FetchEval :=
  fun _ => FetchEval.completes ⟨ReqResult.status 200, ReqResult.status 200⟩

/-- A network where every request completes with status 500. -/
def netFail : String → FetchEval :=
  fun _ => FetchEval.completes ⟨ReqResult.status 500, ReqResult.status 500⟩

/-! ### Lemmas about the Python-set model -/

theorem mem_pySetInsert {x a : String} {l : List String} :
    a ∈ pySetInsert x l ↔ a = x ∨ a ∈ l := by
  unfold pySetInsert
  by_cases h : x ∈ l
  · rw [if_pos h]
    constructor
    · exact Or.inr
    · rintro (rfl | ha)
      · exact h
      · exact ha
  · rw [if_neg h]
    simp [or_comm]

theorem nodup_pySetInsert {x : String} {l : List String} (h : l.Nodup) :
    (pySetInsert x l).Nodup := by
  unfold pySetInsert
  by_cases hx : x ∈ l
  · rwa [if_pos hx]
  · rw [if_neg hx]
    refine List.Nodup.append h (List.nodup_singleton x) ?_
    intro a ha hax
    rw [List.mem_singleton] at hax
    exact hx (hax ▸ ha)

theorem pySetInsert_of_not_mem {x : String} {l : List String} (h : x ∉ l) :
    pySetInsert x l = l ++ [x] := by
  unfold pySetInsert
  rw [if_neg h]

theorem erase_pySetInsert {x : String} {l : List String} (h : x ∉ l) :
    (pySetInsert x l).erase x = l := by
  rw [pySetInsert_of_not_mem h, List.erase_append_right _ h,
    List.erase_cons_head, List.append_nil]

theorem pySetOfList_go (l : List String) :
    ∀ acc : List String, l.Nodup → acc.Nodup → (∀ a ∈ l, a ∉ acc) →
      l.foldl (fun acc x => pySetInsert x acc) acc = acc ++ l := by
  induction l with
  | nil => intro acc _ _ _; simp
  | cons x t ih =>
    intro acc hl hacc hdisj
    have hx : x ∉ acc := hdisj x (List.mem_cons_self x t)
    simp only [List.foldl_cons]
    rw [pySetInsert_of_not_mem hx,
      ih (acc ++ [x]) hl.of_cons
        (List.Nodup.append hacc (List.nodup_singleton x)
          (fun a ha hax => hx ((List.mem_singleton.mp hax) ▸ ha)))
        (fun a ha => by
          rw [List.mem_append, List.mem_singleton]
          rintro (h1 | rfl)
          · exact hdisj a (List.mem_cons_of_mem x ha) h1
          · exact (List.nodup_cons.mp hl).1 ha)]
    simp

theorem pySetOfList_eq_of_nodup {l : List String} (h : l.Nodup) :
    pySetOfList l = l := by
  have := pySetOfList_go l [] h List.nodup_nil (by simp)
  simpa [pySetOfList] using this

theorem mem_pySetOfList_go (l : List String) (a : String) :
    ∀ acc : List String,
      (a ∈ l.foldl (fun acc x => pySetInsert x acc) acc ↔ a ∈ acc ∨ a ∈ l) := by
  induction l with
  | nil => intro acc; simp
  | cons x t ih =>
    intro acc
    simp only [List.foldl_cons, ih (pySetInsert x acc), mem_pySetInsert,
      List.mem_cons]
    tauto

theorem mem_pySetOfList {a : String} {l : List String} :
    a ∈ pySetOfList l ↔ a ∈ l := by
  have := mem_pySetOfList_go l a []
  simpa [pySetOfList] using this

theorem nodup_pySetOfList_go (l : List String) :
    ∀ acc : List String, acc.Nodup →
      (l.foldl (fun acc x => pySetInsert x acc) acc).Nodup := by
  induction l with
  | nil => intro acc h; simpa
  | cons x t ih =>
    intro acc h
    simpa only [List.foldl_cons] using ih (pySetInsert x acc) (nodup_pySetInsert h)

theorem nodup_pySetOfList (l : List String) : (pySetOfList l).Nodup :=
  nodup_pySetOfList_go l [] List.nodup_nil

theorem nodup_load (f : Option (List String)) :
    (load_download_history f).Nodup := by
  cases f with
  | none => exact List.nodup_nil
  | some l => exact nodup_pySetOfList l

theorem load_save (s : List String) :
    load_download_history (save_download_history s) = pySetOfList s := rfl

theorem load_save_of_nodup {s : List String} (h : s.Nodup) :
    load_download_history (save_download_history s) = s :=
  pySetOfList_eq_of_nodup h

/-! ### Characterization of the per-link step -/

theorem processLink_skip
    (baseDir pageUrl bannedSrc : String) (tag : Tag) (url : String)
    (fetch : String → FetchEval) (st : RunState) (subdir : String)
    (hclass : lookupCategory (extOf (urljoin pageUrl url)) = some subdir)
    (hmem : urljoin pageUrl url ∈ load_download_history st.historyFile) :
    processLink baseDir pageUrl bannedSrc tag url fetch st = st := by
  unfold processLink
  simp only [hclass, if_pos hmem]

theorem processLink_raises
    (baseDir pageUrl bannedSrc : String) (tag : Tag) (url : String)
    (fetch : String → FetchEval) (st : RunState) (subdir : String)
    (hclass : lookupCategory (extOf (urljoin pageUrl url)) = some subdir)
    (hnew : urljoin pageUrl url ∉ load_download_history st.historyFile)
    (hr : fetch (urljoin pageUrl url) = FetchEval.raises) :
    processLink baseDir pageUrl bannedSrc tag url fetch st =
      { st with
        historyFile := save_download_history
          ((pySetInsert (urljoin pageUrl url)
              (load_download_history st.historyFile)).erase
            (urljoin pageUrl url)) } := by
  unfold processLink
  simp only [hclass, if_neg hnew, hr]

theorem processLink_completes
    (baseDir pageUrl bannedSrc : String) (tag : Tag) (url : String)
    (fetch : String → FetchEval) (st : RunState) (subdir : String)
    (net : Network)
    (hclass : lookupCategory (extOf (urljoin pageUrl url)) = some subdir)
    (hnew : urljoin pageUrl url ∉ load_download_history st.historyFile)
    (hc : fetch (urljoin pageUrl url) = FetchEval.completes net) :
    processLink baseDir pageUrl bannedSrc tag url fetch st =
      (let absolute_url := urljoin pageUrl url
       let processed_files :=
         pySetInsert absolute_url (load_download_history st.historyFile)
       let save_path := baseDir ++ "/" ++ subdir ++ "/" ++
         derive_filename (unquote absolute_url) (extOf absolute_url)
           processed_files.length
       let r := download_file absolute_url net
       let st' :=
         { st with
           fetched := st.fetched ++ r.requests
           written :=
             if r.wrote then st.written ++ [(save_path, absolute_url)]
             else st.written
           errorLog :=
             if r.logged then st.errorLog ++ [absolute_url] else st.errorLog }
       if r.success then
         { st' with historyFile := save_download_history processed_files }
       else
         { st' with
           historyFile := save_download_history
             (processed_files.erase absolute_url) }) := by
  unfold processLink
  simp only [hclass, if_neg hnew, hc]

theorem processLink_banned_nonfile
    (baseDir pageUrl bannedSrc : String) (tag : Tag) (url : String)
    (fetch : String → FetchEval) (st : RunState)
    (hclass : lookupCategory (extOf (urljoin pageUrl url)) = none)
    (hmatch : (loadBannedPatterns bannedSrc).any (fun p => globMatch p url) = true) :
    processLink baseDir pageUrl bannedSrc tag url fetch st = st := by
  unfold processLink
  simp only [hclass, if_pos hmatch]

theorem processLink_enqueued_unchanged_of_banned
    (baseDir pageUrl bannedSrc : String) (tag : Tag) (url : String)
    (fetch : String → FetchEval) (st : RunState)
    (hmatch : (loadBannedPatterns bannedSrc).any (fun p => globMatch p url) = true) :
    (processLink baseDir pageUrl bannedSrc tag url fetch st).enqueued =
      st.enqueued := by
  cases hl : lookupCategory (extOf (urljoin pageUrl url)) with
  | none =>
    rw [processLink_banned_nonfile baseDir pageUrl bannedSrc tag url fetch st
      hl hmatch]
  | some subdir =>
    unfold processLink
    simp only [hl]
    split
    · rfl
    · split
      · rfl
      · split
        · rfl
        · rfl

/-! ### String lemmas for the classifier refinement -/

theorem takeWhile_append_of_all {α : Type} {p : α → Bool} {a : List α}
    (b : List α) (h : ∀ c ∈ a, p c = true) :
    (a ++ b).takeWhile p = a ++ b.takeWhile p := by
  induction a with
  | nil => simp
  | cons x t ih =>
    have hx := h x (List.mem_cons_self x t)
    simp [List.takeWhile_cons, hx,
      ih (fun c hc => h c (List.mem_cons_of_mem x hc))]

theorem dropWhile_append_of_all {α : Type} {p : α → Bool} {a : List α}
    (b : List α) (h : ∀ c ∈ a, p c = true) :
    (a ++ b).dropWhile p = b.dropWhile p := by
  induction a with
  | nil => simp
  | cons x t ih =>
    have hx := h x (List.mem_cons_self x t)
    simp [List.dropWhile_cons, hx,
      ih (fun c hc => h c (List.mem_cons_of_mem x hc))]

theorem takeWhile_append_of_exists {α : Type} {p : α → Bool} {a : List α}
    (b : List α) (h : ∃ c ∈ a, p c = false) :
    (a ++ b).takeWhile p = a.takeWhile p := by
  induction a with
  | nil =>
    obtain ⟨c, hc, -⟩ := h
    exact absurd hc (List.not_mem_nil c)
  | cons x t ih =>
    cases hx : p x with
    | false => simp [List.takeWhile_cons, hx]
    | true =>
      obtain ⟨c, hc, hcf⟩ := h
      rcases List.mem_cons.mp hc with rfl | hct
      · rw [hx] at hcf; cases hcf
      · simp [List.takeWhile_cons, hx, ih ⟨c, hct, hcf⟩]

theorem breakAtFirst_eq_none {c : Char} {l : List Char}
    (h : ∀ x ∈ l, x ≠ c) : breakAtFirst c l = (l, none) := by
  induction l with
  | nil => rfl
  | cons x t ih =>
    unfold breakAtFirst
    rw [if_neg (h x (List.mem_cons_self x t)),
      ih (fun y hy => h y (List.mem_cons_of_mem x hy))]

theorem pyExtList_append (a : List Char) {b : List Char} (h : '/' ∈ b) :
    pyExtList (a ++ b) = pyExtList b := by
  unfold pyExtList
  rw [List.reverse_append,
    takeWhile_append_of_exists a.reverse
      ⟨'/', List.mem_reverse.mpr h, by simp⟩]

theorem unquote_eq_self {s : String} (h : ∀ c ∈ s.data, c ≠ '%') :
    unquote s = s := by
  unfold unquote
  refine if_neg ?_
  simp only [List.any_eq_true, decide_eq_true_eq, not_exists, not_and]
  exact h

theorem urlsplit_https (host path : String)
    (hhost : ∀ c ∈ host.data, isNetlocChar c = true)
    (hpath : ∀ c ∈ path.data, c ≠ '#' ∧ c ≠ '?')
    (hhead : path.data.head? = some '/') :
    urlsplit ("https://" ++ host ++ path) "" = ("https", host, path, "", "") := by
  obtain ⟨r, hr⟩ : ∃ r, path.data = '/' :: r := by
    cases hp : path.data with
    | nil => rw [hp] at hhead; cases hhead
    | cons x t =>
      rw [hp] at hhead
      exact ⟨t, by rw [(Option.some_inj.mp hhead)]⟩
  have hnl : isNetlocChar '/' = false := rfl
  have htw : List.takeWhile isNetlocChar (host.data ++ path.data) = host.data := by
    rw [takeWhile_append_of_all path.data hhost, hr]
    simp [List.takeWhile_cons, hnl]
  have hdw : List.dropWhile isNetlocChar (host.data ++ path.data) = path.data := by
    rw [dropWhile_append_of_all path.data hhost, hr]
    simp [List.dropWhile_cons, hnl]
  have hfrag : breakAtFirst '#' path.data = (path.data, none) :=
    breakAtFirst_eq_none (fun x hx => (hpath x hx).1)
  have hq : breakAtFirst '?' path.data = (path.data, none) :=
    breakAtFirst_eq_none (fun x hx => (hpath x hx).2)
  unfold urlsplit
  rw [String.data_append, String.data_append]
  have hlit : "https://".data = ['h', 't', 't', 'p', 's', ':', '/', '/'] := rfl
  rw [hlit]
  simp only [List.cons_append, List.nil_append]
  rw [show breakAtFirst ':'
      ('h' :: 't' :: 't' :: 'p' :: 's' :: ':' :: '/' :: '/' ::
        (host.data ++ path.data)) =
      (['h', 't', 't', 'p', 's'],
        some ('/' :: '/' :: (host.data ++ path.data)))
    from rfl]
  simp +decide only [isAsciiAlpha, isSchemeChar, isAsciiDigit, List.all_cons,
    List.all_nil, pyLowerChar]
  rw [show List.map pyLowerChar ['h', 't', 't', 'p', 's'] =
    ['h', 't', 't', 'p', 's'] from rfl]
  simp only [if_true]
  rw [htw, hdw, hfrag, hq]

theorem urlparse_https (host path : String)
    (hhost : ∀ c ∈ host.data, isNetlocChar c = true)
    (hpath : ∀ c ∈ path.data, c ≠ '#' ∧ c ≠ '?' ∧ c ≠ ';')
    (hhead : path.data.head? = some '/') :
    urlparse ("https://" ++ host ++ path) "" =
      ⟨"https", host, path, "", "", ""⟩ := by
  unfold urlparse
  rw [urlsplit_https host path hhost
    (fun c hc => ⟨(hpath c hc).1, (hpath c hc).2.1⟩) hhead]
  have hsemi : path.data.any (fun c => c = ';') = false := by
    rw [List.any_eq_false]
    intro c hc
    simp only [decide_eq_true_eq]
    exact (hpath c hc).2.2
  simp [hsemi]

theorem add_www_to_url_prepends (host path : String)
    (hhost : ∀ c ∈ host.data, isNetlocChar c = true)
    (hpath : ∀ c ∈ path.data, c ≠ '#' ∧ c ≠ '?' ∧ c ≠ ';')
    (hhead : path.data.head? = some '/')
    (hw : pyStartsWith host "www." = false) :
    add_www_to_url ("https://" ++ host ++ path) =
      "https://" ++ ("www." ++ host) ++ path := by
  obtain ⟨r, hr⟩ : ∃ r, path.data = '/' :: r := by
    cases hp : path.data with
    | nil => rw [hp] at hhead; cases hhead
    | cons x t =>
      rw [hp] at hhead
      exact ⟨t, by rw [(Option.some_inj.mp hhead)]⟩
  unfold add_www_to_url
  rw [urlparse_https host path hhost hpath hhead]
  simp only [hw, Bool.not_false, if_true]
  unfold urlunparse urlunsplit
  apply congrArg String.mk
  simp only [String.data_append]
  rw [hr]
  simp +decide [List.cons_append]

theorem pyLowerChar_eq_dot {c : Char} : pyLowerChar c = '.' ↔ c = '.' := by
  unfold pyLowerChar
  split <;> simp_all

theorem pyLowerChar_eq_slash {c : Char} : pyLowerChar c = '/' ↔ c = '/' := by
  unfold pyLowerChar
  split <;> simp_all

theorem basename_pyLower (s : String) :
    basename (pyLower s) = pyLower (basename s) := by
  unfold basename pyLower
  apply congrArg String.mk
  show ((s.data.map pyLowerChar).reverse.takeWhile (fun c => !(c = '/'))).reverse
      = ((s.data.reverse.takeWhile (fun c => !(c = '/'))).reverse).map pyLowerChar
  rw [← List.map_reverse, List.takeWhile_map]
  have hp : ((fun c => !(c = '/')) ∘ pyLowerChar) = (fun c : Char => !(c = '/')) := by
    funext c
    simp [Function.comp, pyLowerChar_eq_slash]
  rw [hp, List.map_reverse]

theorem lookupCategory_none_of_slash {e : String} (h : '/' ∈ e.data) :
    lookupCategory e = none := by
  have hk : ∀ ps : List (String × String), (∀ p ∈ ps, '/' ∉ p.1.data) →
      List.lookup e ps = none := by
    intro ps hps
    induction ps with
    | nil => rfl
    | cons q t ih =>
      obtain ⟨k, v⟩ := q
      have hne : (e == k) = false :=
        beq_eq_false_iff_ne.mpr
          (fun he => hps (k, v) (List.mem_cons_self (k, v) t) (he ▸ h))
      simp only [List.lookup, hne]
      exact ih (fun p hp => hps p (List.mem_cons_of_mem (k, v) hp))
  exact hk DOCUMENT_TYPES (by decide)

theorem dot_decomp {l : List Char} (h : '.' ∈ l) :
    ∃ a b, l = a ++ '.' :: b ∧ l.takeWhile (fun c => !(c = '.')) = a ∧
      l.dropWhile (fun c => !(c = '.')) = '.' :: b := by
  induction l with
  | nil => cases h
  | cons x t ih =>
    by_cases hx : x = '.'
    · subst hx
      exact ⟨[], t, rfl, by simp [List.takeWhile_cons],
        by simp [List.dropWhile_cons]⟩
    · have ht : '.' ∈ t := by
        rcases List.mem_cons.mp h with h1 | h1
        · exact absurd h1.symm hx
        · exact h1
      obtain ⟨a, b, hl, hta, htd⟩ := ih ht
      refine ⟨x :: a, b, ?_, ?_, ?_⟩
      · rw [List.cons_append, ← hl]
      · simp [List.takeWhile_cons, hx, hta]
      · simp [List.dropWhile_cons, hx, htd]

theorem takeWhile_dot_within_basename {l : List Char}
    (h : '.' ∈ l.takeWhile (fun c => !(c = '/'))) :
    l.takeWhile (fun c => !(c = '.')) =
      (l.takeWhile (fun c => !(c = '/'))).takeWhile (fun c => !(c = '.')) := by
  induction l with
  | nil => simp at h
  | cons x t ih =>
    by_cases hs : x = '/'
    · subst hs
      simp +decide [List.takeWhile_cons] at h
    · by_cases hd : x = '.'
      · subst hd
        simp +decide [List.takeWhile_cons]
      · have ht : '.' ∈ t.takeWhile (fun c => !(c = '/')) := by
          rw [List.takeWhile_cons, if_pos (by simp [hs])] at h
          rcases List.mem_cons.mp h with h1 | h1
          · exact absurd h1.symm hd
          · exact h1
        rw [List.takeWhile_cons, if_pos (by simp [hd]),
          List.takeWhile_cons, if_pos (by simp [hs]),
          List.takeWhile_cons, if_pos (by simp [hd]), ih ht]

theorem slash_mem_takeWhile_dot {l : List Char} (hmem : '.' ∈ l)
    (hnot : '.' ∉ l.takeWhile (fun c => !(c = '/'))) :
    '/' ∈ l.takeWhile (fun c => !(c = '.')) := by
  induction l with
  | nil => cases hmem
  | cons x t ih =>
    by_cases hd : x = '.'
    · subst hd
      exfalso
      apply hnot
      rw [List.takeWhile_cons, if_pos (by decide)]
      exact List.mem_cons_self '.' _
    · by_cases hs : x = '/'
      · subst hs
        rw [List.takeWhile_cons, if_pos (by decide)]
        exact List.mem_cons_self '/' _
      · have hmem' : '.' ∈ t := by
          rcases List.mem_cons.mp hmem with h1 | h1
          · exact absurd h1.symm hd
          · exact h1
        have hnot' : '.' ∉ t.takeWhile (fun c => !(c = '/')) := by
          intro hc
          apply hnot
          rw [List.takeWhile_cons, if_pos (by simp [hs])]
          exact List.mem_cons_of_mem x hc
        rw [List.takeWhile_cons, if_pos (by simp [hd])]
        exact List.mem_cons_of_mem x (ih hmem' hnot')

theorem lookupCategory_pyExt_eq_lastDot {l : List Char}
    (hb : ((l.reverse.takeWhile (fun c => !(c = '/'))).reverse).head? ≠
      some '.') :
    lookupCategory ⟨pyExtList l⟩ = lookupCategory ⟨lastDotSuffix l⟩ := by
  by_cases h1 : '.' ∈ l.reverse.takeWhile (fun c => !(c = '/'))
  · obtain ⟨a, b, hab, hta, htd⟩ := dot_decomp h1
    have hbne : b ≠ [] := by
      intro hbnil
      subst hbnil
      apply hb
      rw [hab]
      simp [List.reverse_append]
    have hrevne : b.reverse ≠ [] :=
      fun hrev => hbne (List.reverse_eq_nil_iff.mp hrev)
    obtain ⟨y, ys, hy⟩ := List.exists_cons_of_ne_nil hrevne
    have hymem : y ∈ b :=
      List.mem_reverse.mp (hy ▸ List.mem_cons_self y ys)
    have hyne : y ≠ '.' := by
      intro hydot
      apply hb
      rw [hab, List.reverse_append, List.reverse_cons, hy, hydot]
      simp
    have hany : b.any (fun c => !(c = '.')) = true :=
      List.any_eq_true.mpr ⟨y, hymem, by simp [hyne]⟩
    have hpy : pyExtList l = '.' :: a.reverse := by
      simp only [pyExtList]
      rw [htd]
      simp [hany, hta]
    have hml : '.' ∈ l :=
      List.mem_reverse.mp (List.takeWhile_subset _ h1)
    have hlast : lastDotSuffix l = '.' :: a.reverse := by
      simp only [lastDotSuffix]
      rw [if_pos hml, takeWhile_dot_within_basename h1, hta]
    rw [hpy, hlast]
  · have hpy : pyExtList l = [] := by
      simp only [pyExtList]
      have hdw : (l.reverse.takeWhile (fun c => !(c = '/'))).dropWhile
          (fun c => !(c = '.')) = [] := by
        rw [List.dropWhile_eq_nil_iff]
        intro x hx
        simp only [Bool.not_eq_true', decide_eq_false_iff_not]
        intro hxd
        exact h1 (hxd ▸ hx)
      rw [hdw]
    by_cases h2 : '.' ∈ l
    · have hslash : '/' ∈ lastDotSuffix l := by
        simp only [lastDotSuffix]
        rw [if_pos h2]
        exact List.mem_cons_of_mem _
          (List.mem_reverse.mpr
            (slash_mem_takeWhile_dot (List.mem_reverse.mpr h2) h1))
      rw [hpy]
      have hnil : lookupCategory ⟨([] : List Char)⟩ = none := by decide
      rw [hnil]
      exact (lookupCategory_none_of_slash hslash).symm
    · have hlast : lastDotSuffix l = [] := by
        simp only [lastDotSuffix]
        rw [if_neg h2]
      rw [hpy, hlast]

/-! ### Claims -/

/-- C8: for every finite set `s` of URL strings (a duplicate-free list),
`persist(s)` followed by `load()` returns a set equal to `s`: the full-rewrite
representation round-trips exactly. -/
theorem C8_persist_load_roundtrip (s : List String) (h : s.Nodup) :
    load_download_history (save_download_history s) = s :=
  pySetOfList_eq_of_nodup h

/-- Witness for C8 at a concrete two-element set. -/
theorem C8_witness :
    (["https://a/x.pdf", "https://b/y.csv"] : List String).Nodup ∧
    load_download_history
        (save_download_history ["https://a/x.pdf", "https://b/y.csv"]) =
      ["https://a/x.pdf", "https://b/y.csv"] :=
  ⟨by decide,
   C8_persist_load_roundtrip ["https://a/x.pdf", "https://b/y.csv"] (by decide)⟩

/-- C4: when the fetch of a new file URL fails (falsy `download_file` result)
or the download attempt raises, the URL is absent from the persisted history
immediately afterward, even though it had just been speculatively added. -/
theorem C4_failure_rollback
    (baseDir pageUrl bannedSrc : String) (tag : Tag) (url : String)
    (fetch : String → FetchEval) (st : RunState) (subdir : String)
    (hclass : lookupCategory (extOf (urljoin pageUrl url)) = some subdir)
    (hnew : urljoin pageUrl url ∉ load_download_history st.historyFile)
    (hfail : fetch (urljoin pageUrl url) = FetchEval.raises ∨
      ∃ net, fetch (urljoin pageUrl url) = FetchEval.completes net ∧
        (download_file (urljoin pageUrl url) net).success = false) :
    urljoin pageUrl url ∉
      load_download_history
        (processLink baseDir pageUrl bannedSrc tag url fetch st).historyFile := by
  rcases hfail with hr | ⟨net, hc, hsucc⟩
  · rw [processLink_raises baseDir pageUrl bannedSrc tag url fetch st subdir
      hclass hnew hr]
    intro hmem
    exact List.Nodup.not_mem_erase
      (nodup_pySetInsert (nodup_load st.historyFile))
      (mem_pySetOfList.mp hmem)
  · rw [processLink_completes baseDir pageUrl bannedSrc tag url fetch st subdir
      net hclass hnew hc]
    simp only [hsucc, if_neg, Bool.false_eq_true, not_false_eq_true]
    intro hmem
    exact List.Nodup.not_mem_erase
      (nodup_pySetInsert (nodup_load st.historyFile))
      (mem_pySetOfList.mp hmem)

/-- Witness for C4: a 500 response on a fresh `.pdf` link leaves the
persisted history without the URL. -/
theorem C4_witness :
    lookupCategory (extOf (urljoin "https://x.com/" "f.pdf")) =
      some "documents" ∧
    urljoin "https://x.com/" "f.pdf" ∉
      load_download_history
        (processLink "downloaded_files" "https://x.com/" "" Tag.a "f.pdf"
          netFail initialState).historyFile :=
  ⟨by decide,
   C4_failure_rollback "downloaded_files" "https://x.com/" "" Tag.a "f.pdf"
     netFail initialState "documents" (by decide) (by decide)
     (Or.inr ⟨⟨ReqResult.status 500, ReqResult.status 500⟩, rfl, by decide⟩)⟩

/-- C2 counterexample: the code computes the extension from the entire
decoded URL, so a query string changes the result — `classify` disagrees with
the spec's path-component rule on `https://site/a.pdf?x=1`.  It also applies
`os.path.splitext`'s leading-dot exception, so even on a clean URL the
dotfile basename `/.pdf` is "not a file" although the spec's literal
last-dot rule maps it to `documents`. -/
theorem C2_counterexample :
    classify "https://site/a.pdf?x=1" = none ∧
    classifySpecC2 "https://site/a.pdf?x=1" = some "documents" ∧
    classify "https://site/a.pdf" = some "documents" ∧
    classify "https://site/.pdf" = none ∧
    classifySpecC2 "https://site/.pdf" = some "documents" :=
  ⟨by decide, by decide, by decide, by decide, by decide⟩

/-- C2 amended: `classify` takes the extension suffix of the whole lowercased
decoded URL via `os.path.splitext` (so query strings and fragments do
influence it, and a dotfile basename is extensionless by the leading-dot
exception); on URLs of the form `https://host/path` without query, fragment,
parameters or percent-escapes, and whose path basename does not start with a
dot, it coincides with the spec's path-component last-dot rule, and also
equals the CategoryMap lookup of the lowercased path's `splitext` suffix. -/
theorem C2_amended_path_refinement (host path : String)
    (hhost : ∀ c ∈ host.data, c ≠ '/' ∧ c ≠ '?' ∧ c ≠ '#' ∧ c ≠ '%')
    (hpath : ∀ c ∈ path.data, c ≠ '?' ∧ c ≠ '#' ∧ c ≠ ';' ∧ c ≠ '%')
    (hhead : path.data.head? = some '/')
    (hbase : (basename path).data.head? ≠ some '.') :
    classify ("https://" ++ host ++ path) =
      classifySpecC2 ("https://" ++ host ++ path) ∧
    classify ("https://" ++ host ++ path) =
      lookupCategory (splitext (pyLower path)).2 := by
  obtain ⟨r, hr⟩ : ∃ r, path.data = '/' :: r := by
    cases hp : path.data with
    | nil => rw [hp] at hhead; cases hhead
    | cons x t =>
      rw [hp] at hhead
      exact ⟨t, by rw [(Option.some_inj.mp hhead)]⟩
  have hu : ∀ c ∈ ("https://" ++ host ++ path).data, c ≠ '%' := by
    rw [String.data_append, String.data_append]
    intro c hc
    rcases List.mem_append.mp hc with h1 | h2
    · rcases List.mem_append.mp h1 with h0 | hh
      · have hlitall : ∀ c ∈ "https://".data, c ≠ '%' := by decide
        exact hlitall c h0
      · exact (hhost c hh).2.2.2
    · exact (hpath c h2).2.2.2
  have hunq : unquote ("https://" ++ host ++ path) =
      "https://" ++ host ++ path := unquote_eq_self hu
  have hsplit2 : ∀ s : String, (splitext s).2 = ⟨pyExtList s.data⟩ :=
    fun _ => rfl
  have hmem : '/' ∈ path.data.map pyLowerChar := by
    rw [hr]
    exact List.mem_cons_self '/' _
  have hext : extOf ("https://" ++ host ++ path) =
      (splitext (pyLower path)).2 := by
    unfold extOf
    rw [hunq, hsplit2, hsplit2]
    have hd : (pyLower ("https://" ++ host ++ path)).data =
        ("https://".data.map pyLowerChar ++ host.data.map pyLowerChar) ++
          path.data.map pyLowerChar := by
      show ("https://" ++ host ++ path).data.map pyLowerChar = _
      rw [String.data_append, String.data_append, List.map_append,
        List.map_append]
    rw [hd, pyExtList_append _ hmem]
    rfl
  have hbase' :
      (((pyLower path).data.reverse.takeWhile
          (fun c => !(c = '/'))).reverse).head? ≠ some '.' := by
    show (basename (pyLower path)).data.head? ≠ some '.'
    rw [basename_pyLower]
    show ((basename path).data.map pyLowerChar).head? ≠ some '.'
    rw [List.head?_map]
    intro hcon
    cases hh : (basename path).data.head? with
    | none => rw [hh] at hcon; cases hcon
    | some c =>
      rw [hh] at hcon
      rw [Option.map_some'] at hcon
      apply hbase
      rw [hh, pyLowerChar_eq_dot.mp (Option.some_inj.mp hcon)]
  constructor
  · show lookupCategory (extOf _) = _
    unfold classifySpecC2
    rw [hunq, urlparse_https host path
      (fun c hc => by
        have h := hhost c hc
        simp [isNetlocChar, h.1, h.2.1, h.2.2.1])
      (fun c hc => ⟨(hpath c hc).2.1, (hpath c hc).1, (hpath c hc).2.2.1⟩)
      hhead]
    rw [hext, hsplit2]
    exact lookupCategory_pyExt_eq_lastDot hbase'
  · show lookupCategory (extOf _) = _
    rw [hext]

/-- Witness for C2 amended: the refinement instantiated at
`https://site.com/a.pdf`. -/
theorem C2_amended_witness :
    classify ("https://" ++ "site.com" ++ "/a.pdf") =
      classifySpecC2 ("https://" ++ "site.com" ++ "/a.pdf") ∧
    classify ("https://" ++ "site.com" ++ "/a.pdf") =
      lookupCategory (splitext (pyLower "/a.pdf")).2 :=
  C2_amended_path_refinement "site.com" "/a.pdf" (by decide) (by decide)
    (by decide) (by decide)

/-- C3 counterexample: two differently percent-encoded hrefs decode to the
same string, yet processing both yields two distinct history entries — the
dedup key is not the percent-decoded URL. -/
theorem C3_counterexample :
    unquote "https://site/a%20b.pdf" = unquote "https://site/a b.pdf" ∧
    "https://site/a%20b.pdf" ≠ "https://site/a b.pdf" ∧
    (request_handler "downloaded_files" "https://x.com/" ""
        [(Tag.a, "https://site/a%20b.pdf"), (Tag.a, "https://site/a b.pdf")]
        netOK initialState).historyFile =
      some ["https://site/a%20b.pdf", "https://site/a b.pdf"] :=
  ⟨by decide, by decide, by decide⟩

/-- C3 amended: the dedup key tested against and inserted into the history is
the resolved absolute URL before percent-decoding (`absolute_url`, not
`decoded_url`), so distinct encodings of one resource give distinct entries. -/
theorem C3_amended_dedup_key
    (baseDir pageUrl bannedSrc : String) (tag : Tag) (url : String)
    (fetch : String → FetchEval) (st : RunState) (subdir : String)
    (net : Network)
    (hclass : lookupCategory (extOf (urljoin pageUrl url)) = some subdir) :
    (urljoin pageUrl url ∈ load_download_history st.historyFile →
      processLink baseDir pageUrl bannedSrc tag url fetch st = st) ∧
    (urljoin pageUrl url ∉ load_download_history st.historyFile →
      fetch (urljoin pageUrl url) = FetchEval.completes net →
      (download_file (urljoin pageUrl url) net).success = true →
      (processLink baseDir pageUrl bannedSrc tag url fetch st).historyFile =
        save_download_history
          (pySetInsert (urljoin pageUrl url)
            (load_download_history st.historyFile))) := by
  constructor
  · intro hmem
    exact processLink_skip baseDir pageUrl bannedSrc tag url fetch st subdir
      hclass hmem
  · intro hnew hc hsucc
    rw [processLink_completes baseDir pageUrl bannedSrc tag url fetch st subdir
      net hclass hnew hc]
    simp only [hsucc, if_pos]

/-- Witness for C3 amended: a URL already present under its encoded form is
skipped. -/
theorem C3_amended_witness :
    lookupCategory (extOf (urljoin "https://x.com/" "a.pdf")) =
      some "documents" ∧
    processLink "downloaded_files" "https://x.com/" "" Tag.a "a.pdf" netOK
        { historyFile := some ["https://x.com/a.pdf"], errorLog := [],
          written := [], fetched := [], enqueued := [] } =
      { historyFile := some ["https://x.com/a.pdf"], errorLog := [],
        written := [], fetched := [], enqueued := [] } :=
  ⟨by decide,
   (C3_amended_dedup_key "downloaded_files" "https://x.com/" "" Tag.a "a.pdf"
       netOK
       { historyFile := some ["https://x.com/a.pdf"], errorLog := [],
         written := [], fetched := [], enqueued := [] }
       "documents" ⟨ReqResult.status 200, ReqResult.status 200⟩
       (by decide)).1 (by decide)⟩

/-- C7: after a successful, persisted download of a URL, a second sequential
encounter of the same resolved URL changes nothing (no second fetch, no
second write), and the URL appears exactly once in the persisted history. -/
theorem C7_second_encounter_idempotent
    (baseDir baseDir2 pageUrl pageUrl2 bannedSrc bannedSrc2 : String)
    (tag tag2 : Tag) (url url2 : String) (fetch : String → FetchEval)
    (st : RunState) (subdir : String) (net : Network)
    (hsame : urljoin pageUrl2 url2 = urljoin pageUrl url)
    (hclass : lookupCategory (extOf (urljoin pageUrl url)) = some subdir)
    (hnew : urljoin pageUrl url ∉ load_download_history st.historyFile)
    (hc : fetch (urljoin pageUrl url) = FetchEval.completes net)
    (hsucc : (download_file (urljoin pageUrl url) net).success = true) :
    processLink baseDir2 pageUrl2 bannedSrc2 tag2 url2 fetch
        (processLink baseDir pageUrl bannedSrc tag url fetch st) =
      processLink baseDir pageUrl bannedSrc tag url fetch st ∧
    ∃ l, (processLink baseDir pageUrl bannedSrc tag url fetch st).historyFile =
        some l ∧
      l.count (urljoin pageUrl url) = 1 := by
  have hfile :
      (processLink baseDir pageUrl bannedSrc tag url fetch st).historyFile =
        save_download_history
          (pySetInsert (urljoin pageUrl url)
            (load_download_history st.historyFile)) := by
    rw [processLink_completes baseDir pageUrl bannedSrc tag url fetch st subdir
      net hclass hnew hc]
    simp only [hsucc, if_pos]
  constructor
  · apply processLink_skip baseDir2 pageUrl2 bannedSrc2 tag2 url2 fetch _
      subdir (hsame ▸ hclass)
    rw [hsame, hfile, load_save]
    exact mem_pySetOfList.mpr (mem_pySetInsert.mpr (Or.inl rfl))
  · refine ⟨pySetInsert (urljoin pageUrl url)
      (load_download_history st.historyFile), hfile, ?_⟩
    exact List.count_eq_one_of_mem
      (nodup_pySetInsert (nodup_load st.historyFile))
      (mem_pySetInsert.mpr (Or.inl rfl))

/-- Witness for C7: processing the same `.pdf` link twice from a fresh state. -/
theorem C7_witness :
    processLink "downloaded_files" "https://x.com/" "" Tag.a "a.pdf" netOK
        (processLink "downloaded_files" "https://x.com/" "" Tag.a "a.pdf"
          netOK initialState) =
      processLink "downloaded_files" "https://x.com/" "" Tag.a "a.pdf" netOK
        initialState ∧
    ∃ l, (processLink "downloaded_files" "https://x.com/" "" Tag.a "a.pdf"
        netOK initialState).historyFile = some l ∧
      l.count (urljoin "https://x.com/" "a.pdf") = 1 :=
  C7_second_encounter_idempotent "downloaded_files" "downloaded_files"
    "https://x.com/" "https://x.com/" "" "" Tag.a Tag.a "a.pdf" "a.pdf" netOK
    initialState "documents" ⟨ReqResult.status 200, ReqResult.status 200⟩ rfl
    (by decide) (by decide) rfl (by decide)

/-- C9: for a fresh classified file URL whose fetch writes the file, the
recorded destination is `<base>/<category>/<filename>` with the filename
derived by `derive_filename` from the decoded URL, the classified extension,
and the history size immediately after insertion; `derive_filename` is the
basename of the decoded URL unless that is empty or extensionless, in which
case it is `file_<n><ext>`. -/
theorem C9_filename_derivation
    (baseDir pageUrl bannedSrc : String) (tag : Tag) (url : String)
    (fetch : String → FetchEval) (st : RunState) (subdir : String)
    (net : Network)
    (hclass : lookupCategory (extOf (urljoin pageUrl url)) = some subdir)
    (hnew : urljoin pageUrl url ∉ load_download_history st.historyFile)
    (hc : fetch (urljoin pageUrl url) = FetchEval.completes net)
    (hwrote : (download_file (urljoin pageUrl url) net).wrote = true) :
    (processLink baseDir pageUrl bannedSrc tag url fetch st).written =
      st.written ++
        [(baseDir ++ "/" ++ subdir ++ "/" ++
            derive_filename (unquote (urljoin pageUrl url))
              (extOf (urljoin pageUrl url))
              (pySetInsert (urljoin pageUrl url)
                (load_download_history st.historyFile)).length,
          urljoin pageUrl url)] ∧
    (∀ d e n, derive_filename d e n =
      if basename d = "" ∨ (splitext (basename d)).2 = "" then
        "file_" ++ toString n ++ e
      else basename d) := by
  constructor
  · rw [processLink_completes baseDir pageUrl bannedSrc tag url fetch st subdir
      net hclass hnew hc]
    simp only [hwrote, if_pos]
    split
    · rfl
    · rfl
  · intro d e n
    rfl

/-- Witness for C9 on a concrete link with a regular basename. -/
theorem C9_witness :
    (processLink "downloaded_files" "https://x.com/" "" Tag.a "b c.pdf" netOK
        initialState).written =
      [("downloaded_files" ++ "/" ++ "documents" ++ "/" ++
          derive_filename (unquote (urljoin "https://x.com/" "b c.pdf"))
            (extOf (urljoin "https://x.com/" "b c.pdf"))
            (pySetInsert (urljoin "https://x.com/" "b c.pdf")
              (load_download_history initialState.historyFile)).length,
        urljoin "https://x.com/" "b c.pdf")] ∧
    (∀ d e n, derive_filename d e n =
      if basename d = "" ∨ (splitext (basename d)).2 = "" then
        "file_" ++ toString n ++ e
      else basename d) :=
  C9_filename_derivation "downloaded_files" "https://x.com/" "" Tag.a
    "b c.pdf" netOK initialState "documents"
    ⟨ReqResult.status 200, ReqResult.status 200⟩ (by decide) (by decide) rfl
    (by decide)

/-- C10: two distinct file URLs (same basename, different hosts) derive the
same destination path, and a later successful download of the second
overwrites the file saved for the first. -/
theorem C10_destination_collision :
    ∃ u1 u2 : String, u1 ≠ u2 ∧
      (processLink "downloaded_files" "https://x.com/" "" Tag.a u1 netOK
          initialState).written =
        [("downloaded_files/documents/x.pdf", u1)] ∧
      (processLink "downloaded_files" "https://x.com/" "" Tag.a u2 netOK
          (processLink "downloaded_files" "https://x.com/" "" Tag.a u1 netOK
            initialState)).written =
        [("downloaded_files/documents/x.pdf", u1),
         ("downloaded_files/documents/x.pdf", u2)] ∧
      fileContents
          (processLink "downloaded_files" "https://x.com/" "" Tag.a u1 netOK
            initialState).written "downloaded_files/documents/x.pdf" =
        some u1 ∧
      fileContents
          (processLink "downloaded_files" "https://x.com/" "" Tag.a u2 netOK
            (processLink "downloaded_files" "https://x.com/" "" Tag.a u1
              netOK initialState)).written
          "downloaded_files/documents/x.pdf" =
        some u2 :=
  ⟨"https://a.com/x.pdf", "https://b.com/x.pdf", by decide, by decide,
    by decide, by decide, by decide⟩

/-- C1 counterexample: a candidate link that matches a loaded banned pattern
but classifies as a file is still routed to the File Fetcher and downloaded —
the banned filter is only consulted for non-file links. -/
theorem C1_counterexample :
    (loadBannedPatterns "*.pdf\n").any (fun p => globMatch p "a.pdf") = true ∧
    (processLink "downloaded_files" "https://x.com/" "*.pdf\n" Tag.a "a.pdf"
        netOK initialState).fetched = ["https://x.com/a.pdf"] ∧
    (processLink "downloaded_files" "https://x.com/" "*.pdf\n" Tag.a "a.pdf"
        netOK initialState).written =
      [("downloaded_files/documents/a.pdf", "https://x.com/a.pdf")] :=
  ⟨by decide, by decide, by decide⟩

/-- C1 amended: a candidate URL matching a loaded banned pattern is never
handed to the engine's enqueue call, and when it does not classify as a file
link the step has no effect at all; a file-classified URL bypasses the banned
filter. -/
theorem C1_amended_banned_filter
    (baseDir pageUrl bannedSrc : String) (tag : Tag) (url : String)
    (fetch : String → FetchEval) (st : RunState)
    (hmatch : (loadBannedPatterns bannedSrc).any (fun p => globMatch p url) =
      true) :
    (processLink baseDir pageUrl bannedSrc tag url fetch st).enqueued =
      st.enqueued ∧
    (lookupCategory (extOf (urljoin pageUrl url)) = none →
      processLink baseDir pageUrl bannedSrc tag url fetch st = st) ∧
    (∀ subdir, lookupCategory (extOf (urljoin pageUrl url)) = some subdir →
      ∀ bannedSrc2,
        processLink baseDir pageUrl bannedSrc tag url fetch st =
          processLink baseDir pageUrl bannedSrc2 tag url fetch st) :=
  ⟨processLink_enqueued_unchanged_of_banned baseDir pageUrl bannedSrc tag url
      fetch st hmatch,
   fun hnone => processLink_banned_nonfile baseDir pageUrl bannedSrc tag url
      fetch st hnone hmatch,
   fun subdir hsome bannedSrc2 => by
     unfold processLink
     simp only [hsome]⟩

/-- Witness for C1 amended: a banned non-file anchor is dropped entirely. -/
theorem C1_amended_witness :
    (loadBannedPatterns "*/page2.html\n").any
        (fun p => globMatch p "sub/page2.html") = true ∧
    processLink "downloaded_files" "https://x.com/" "*/page2.html\n" Tag.a
        "sub/page2.html" netOK initialState = initialState :=
  ⟨by decide,
   (C1_amended_banned_filter "downloaded_files" "https://x.com/"
       "*/page2.html\n" Tag.a "sub/page2.html" netOK initialState
       (by decide)).2.1 (by decide)⟩

/-- C5 counterexample: a DNS failure whose www-retry completes with a non-200
status exhausts the retry and fails, yet nothing is appended to the error
log. -/
theorem C5_counterexample :
    (download_file "http://ex.com/a.pdf"
        ⟨ReqResult.exn "getaddrinfo failed", ReqResult.status 404⟩).success =
      false ∧
    (download_file "http://ex.com/a.pdf"
        ⟨ReqResult.exn "getaddrinfo failed", ReqResult.status 404⟩).requests.length =
      2 ∧
    (download_file "http://ex.com/a.pdf"
        ⟨ReqResult.exn "getaddrinfo failed", ReqResult.status 404⟩).logged =
      false :=
  ⟨by decide, by decide, by decide⟩

/-- C5 amended: the error log is appended exactly when the fetch fails by an
exception — a non-retryable initial exception, or an exception raised by the
www-retry; a non-200 response (initial or on the retry) yields a failure with
no error-log append. -/
theorem C5_amended_errorlog (url : String) (net : Network) :
    (download_file url net).logged = true ↔
      ((download_file url net).success = false ∧
        ∃ msg, net.first = ReqResult.exn msg ∧
          (dnsRetryCond msg url = false ∨
            ∃ msg2, net.second = ReqResult.exn msg2)) := by
  obtain ⟨f, s⟩ := net
  cases f with
  | status code =>
    by_cases hc : code = 200 <;> simp [download_file, hc]
  | exn msg =>
    by_cases hd : dnsRetryCond msg url
    · cases s with
      | status code2 =>
        by_cases hc2 : code2 = 200 <;> simp [download_file, hd, hc2]
      | exn msg2 => simp [download_file, hd]
    · simp [download_file, hd, Bool.not_eq_true] at *

/-- C6: on a `getaddrinfo failed` exception for a host without the `www.`
prefix, exactly two requests are attempted — the original URL then
`add_www_to_url url` — and a 200 on the retry is reported as overall success;
in every other case exactly one request is attempted. -/
theorem C6_www_retry (url : String) (net : Network) :
    ((∃ msg, net.first = ReqResult.exn msg ∧ dnsRetryCond msg url = true) →
      (download_file url net).requests = [url, add_www_to_url url] ∧
      (net.second = ReqResult.status 200 →
        (download_file url net).success = true)) ∧
    ((∀ msg, net.first = ReqResult.exn msg → dnsRetryCond msg url = false) →
      (download_file url net).requests = [url]) := by
  obtain ⟨f, s⟩ := net
  cases f with
  | status code =>
    constructor
    · rintro ⟨msg, h, -⟩
      exact absurd h (by simp)
    · intro
      by_cases hc : code = 200 <;> simp [download_file, hc]
  | exn msg =>
    constructor
    · rintro ⟨msg', hmsg, hd⟩
      obtain rfl : msg = msg' := by injection hmsg
      cases s with
      | status code2 =>
        by_cases hc2 : code2 = 200 <;>
          simp [download_file, hd, hc2]
      | exn msg2 => simp [download_file, hd]
    · intro hall
      have hd := hall msg rfl
      cases s <;> simp [download_file, hd]

/-- Witness for C6: concrete DNS failure with a 200 on the www-retry. -/
theorem C6_witness :
    (download_file "http://ex.com/a.pdf"
        ⟨ReqResult.exn "getaddrinfo failed", ReqResult.status 200⟩).requests =
      ["http://ex.com/a.pdf", add_www_to_url "http://ex.com/a.pdf"] ∧
    (download_file "http://ex.com/a.pdf"
        ⟨ReqResult.exn "getaddrinfo failed", ReqResult.status 200⟩).success =
      true := by
  have h := (C6_www_retry "http://ex.com/a.pdf"
      ⟨ReqResult.exn "getaddrinfo failed", ReqResult.status 200⟩).1
    ⟨"getaddrinfo failed", rfl, by decide⟩
  exact ⟨h.1, h.2 rfl⟩

end Crahler
